import Mathlib

/-!
Verification of the Stat-trader event pipeline against its specification.

The development shallowly embeds the pipeline of the repository:
pricing engine (`app/pricing_engine.py`), event normalizer
(`app/data_provider.py`, `process_statsbomb`), the live-feed
deduplication filter (`app/api_football_client.py`,
`LiveMatchFeed._process_fixture`), the websocket broadcast fan-out
(`app/main.py` / `app/main_production.py`, `broadcast`), and the
lifecycle `start` methods of the three event-source variants.

Python `float` arithmetic is embedded as ℚ; `round(x, 2)` is embedded as
round-half-to-even at two decimal places, which is Python's rounding
mode.  Python `dict`s are embedded as insertion-ordered association
lists (`setdefault`/first assignment appends, assignment to an existing
key replaces the first binding in place), matching CPython semantics.
-/

/-! ### Rounding: Python `round(x, 2)` on ℚ (round-half-to-even) -/

/-- Round-half-to-even to an integer, Python's `round` tie-breaking rule. -/
def rndHalfEven (x : ℚ) : ℤ :=
  let f : ℤ := ⌊x⌋
  if x - f < 1/2 then f
  else if 1/2 < x - f then f + 1
  else if Even f then f else f + 1

/-- Python's `round(x, 2)`: round-half-to-even at two decimal places. -/
def round2 (x : ℚ) : ℚ := (rndHalfEven (x * 100) : ℚ) / 100

/-! ### `StatUpdate` (`app/data_provider.py`) -/

/-- `StatUpdate` pydantic model of `app/data_provider.py`. -/
structure StatUpdate where
  player_id : String
  goals : ℤ := 0
  assists : ℤ := 0
  minutes : ℤ := 0
  injury : Bool := false
deriving Repr, DecidableEq

/-! ### `PricingEngine` (`app/pricing_engine.py`) -/

/-- The state of `PricingEngine`: the `prices` dict and the configured
`base_price` (default `1000.0`). -/
structure PricingEngine where
  prices : List (String × ℚ) := []
  base_price : ℚ := 1000
deriving Repr, DecidableEq

/-- Assignment `d[k] = v` on an insertion-ordered dict: replace the first
binding of `k` if present, else append at the end. -/
def setKey (l : List (String × ℚ)) (k : String) (v : ℚ) : List (String × ℚ) :=
  match l with
  | [] => [(k, v)]
  | (k', v') :: rest => if k' = k then (k', v) :: rest else (k', v') :: setKey rest k v

/-- `PricingEngine._ensure`: look up the player's price, inserting the base
price first when the player is absent.  Returns the (now stored) price and
the possibly extended engine state. -/
def ensurePrice (e : PricingEngine) (pid : String) : ℚ × PricingEngine :=
  match e.prices.lookup pid with
  | some p => (p, e)
  | none => (e.base_price, { e with prices := e.prices ++ [(pid, e.base_price)] })

/-- `PricingEngine.apply_stat`: resolve the current price (creating it at the
base price if absent), compute the additive delta
`100*goals + 50*assists + 0.1*minutes`, multiply the pre-update price by `0.7`
when `injury` is set, add the delta, round to 2 decimals, store and return. -/
def apply_stat (e : PricingEngine) (stat : StatUpdate) : ℚ × PricingEngine :=
  let pid := stat.player_id
  let (price, e1) := ensurePrice e pid
  let delta : ℚ := 100 * stat.goals + 50 * stat.assists + (1/10) * stat.minutes
  let price := if stat.injury then price * (7/10) else price
  let new_price := price + delta
  let stored := round2 new_price
  (stored, { e1 with prices := setKey e1.prices pid stored })

/-- The spec's pricing formula (§4.3 / §8 of the specification):
`round((P*0.7 if injury else P) + 100*goals + 50*assists + 0.1*minutes, 2)`. -/
def specApplyFormula (P : ℚ) (goals assists minutes : ℤ) (injury : Bool) : ℚ :=
  round2 ((if injury then P * (7/10) else P)
    + 100 * goals + 50 * assists + (1/10) * minutes)

/-- The prior stored price for `pid`: the stored entry, or the base price when
the player is absent from the price map. -/
def priorPrice (e : PricingEngine) (pid : String) : ℚ :=
  (e.prices.lookup pid).getD e.base_price

/-! ### Basic dict lemmas for the pricing engine -/

theorem lookup_setKey_self (l : List (String × ℚ)) (k : String) (v : ℚ) :
    (setKey l k v).lookup k = some v := by
  induction l with
  | nil => simp [setKey, List.lookup]
  | cons hd tl ih =>
    obtain ⟨k', v'⟩ := hd
    by_cases h : k' = k
    · subst h
      simp [setKey, List.lookup]
    · have hb : (k == k') = false := beq_eq_false_iff_ne.mpr (Ne.symm h)
      simp [setKey, h, List.lookup, hb, ih]

theorem setKey_of_lookup_eq (l : List (String × ℚ)) (k : String) (v : ℚ)
    (h : l.lookup k = some v) : setKey l k v = l := by
  induction l with
  | nil => simp [List.lookup] at h
  | cons hd tl ih =>
    obtain ⟨k', v'⟩ := hd
    by_cases hk : k' = k
    · subst hk
      simp [List.lookup] at h
      simp [setKey, h]
    · have hb : (k == k') = false := beq_eq_false_iff_ne.mpr (Ne.symm hk)
      simp [List.lookup, hb] at h
      simp [setKey, hk, ih h]

/-! ### Evaluating `round2` on exact two-decimal values -/

theorem rndHalfEven_intCast (m : ℤ) : rndHalfEven (m : ℚ) = m := by
  simp [rndHalfEven]

theorem round2_of_mul_hundred_eq_int (x : ℚ) (m : ℤ) (h : x * 100 = (m : ℚ)) :
    round2 x = (m : ℚ) / 100 := by
  rw [round2, h, rndHalfEven_intCast]

/-- C1: `apply_stat` stores and returns
`round((P*0.7 if injury else P) + 100*goals + 50*assists + 0.1*minutes, 2)`
where `P` is the prior stored price (the base price, default 1000.0, when the
player is absent from the price map); the injury penalty multiplies the
pre-update price before the delta is added; and sequential applies compound on
the stored result: two single-goal applies from the default base 1000 yield
1100.00 then 1200.00. -/
theorem c1_apply_stat_formula :
    (∀ (e : PricingEngine) (stat : StatUpdate),
        (apply_stat e stat).1
            = specApplyFormula (priorPrice e stat.player_id)
                stat.goals stat.assists stat.minutes stat.injury
          ∧ (apply_stat e stat).2.prices.lookup stat.player_id
              = some (specApplyFormula (priorPrice e stat.player_id)
                  stat.goals stat.assists stat.minutes stat.injury))
      ∧ ((apply_stat {} { player_id := "p6", goals := 1 }).1 = 1100
          ∧ (apply_stat (apply_stat {} { player_id := "p6", goals := 1 }).2
              { player_id := "p6", goals := 1 }).1 = 1200) := by
  constructor
  · intro e stat
    cases hl : e.prices.lookup stat.player_id with
    | some p =>
      constructor
      · simp [apply_stat, ensurePrice, hl, specApplyFormula, priorPrice]
        congr 1
        ring
      · simp [apply_stat, ensurePrice, hl, specApplyFormula, priorPrice,
          lookup_setKey_self]
        congr 1
        ring
    | none =>
      constructor
      · simp [apply_stat, ensurePrice, hl, specApplyFormula, priorPrice]
        congr 1
        ring
      · simp [apply_stat, ensurePrice, hl, specApplyFormula, priorPrice,
          lookup_setKey_self]
        congr 1
        ring
  · have hv1 : round2 (1100 : ℚ) = 1100 := by
      rw [round2_of_mul_hundred_eq_int _ 110000 (by norm_num)]
      norm_num
    have hv2 : round2 (1200 : ℚ) = 1200 := by
      rw [round2_of_mul_hundred_eq_int _ 120000 (by norm_num)]
      norm_num
    constructor
    · simp [apply_stat, ensurePrice, List.lookup]
      norm_num [hv1]
    · simp [apply_stat, ensurePrice, List.lookup, setKey]
      norm_num [hv1, hv2]

/-- C9: for a player already present in the price map whose stored price is a
two-decimal value (as every price the engine itself stores is), applying an
all-zero `StatUpdate` (goals = assists = minutes = 0, injury = false) returns
the stored price and leaves the engine state — including the price map —
completely unchanged. -/
theorem c9_zero_stat_identity (e : PricingEngine) (pid : String) (p : ℚ)
    (h1 : e.prices.lookup pid = some p) (h2 : round2 p = p) :
    apply_stat e { player_id := pid } = (p, e) := by
  have harg : p + (100 * ((0 : ℤ) : ℚ) + 50 * ((0 : ℤ) : ℚ) + (1/10) * ((0 : ℤ) : ℚ)) = p := by
    norm_num
  simp [apply_stat, ensurePrice, h1, harg, h2, setKey_of_lookup_eq _ _ _ h1]

/-- Witness for C9 at a concrete engine: player `"a"` stored at 1000. -/
theorem c9_zero_stat_identity_witness :
    apply_stat ⟨[("a", 1000)], 1000⟩ { player_id := "a" } = (1000, ⟨[("a", 1000)], 1000⟩) :=
  c9_zero_stat_identity ⟨[("a", 1000)], 1000⟩ "a" 1000 (by simp [List.lookup])
    (by rw [round2_of_mul_hundred_eq_int _ 100000 (by norm_num)]; norm_num)

/-! ### C5: atomicity of the four-step price update

`apply_stat` is a coroutine; under cooperative scheduling another task can
observe the engine state only at suspension points (and around the whole
call).  We embed the body of `apply_stat` as its sequence of atomic
statements, each a state transformer tagged with whether executing it
suspends the coroutine.  The statements are, in source order: the
`_ensure` read (which may lazily insert the base price), the pure local
computations (no state effect), the store of the final rounded price, the
`print` (I/O on stdout but not a scheduling point), and `await
asyncio.sleep(0)` (the only suspension point, after the store). -/

theorem lookup_append_singleton_of_none (l : List (String × ℚ)) (k : String) (v : ℚ)
    (h : l.lookup k = none) : (l ++ [(k, v)]).lookup k = some v := by
  induction l with
  | nil => simp [List.lookup]
  | cons hd tl ih =>
    obtain ⟨k', v'⟩ := hd
    by_cases hk : k = k'
    · subst hk
      simp [List.lookup] at h
    · simp only [List.lookup, List.cons_append, beq_eq_false_iff_ne.mpr hk] at h ⊢
      exact ih h

/-- One atomic statement of a coroutine body: its effect on the engine state
and whether executing it suspends the coroutine (yields to the scheduler). -/
structure EngineStep where
  run : PricingEngine → PricingEngine
  suspends : Bool

/-- The value `apply_stat` stores: the rounded update computed from the price
current at store time (identical to the local `price`, since no statement
between the read and the store changes the map). -/
def storedValue (e : PricingEngine) (stat : StatUpdate) : ℚ :=
  round2 ((if stat.injury then priorPrice e stat.player_id * (7/10)
            else priorPrice e stat.player_id)
    + (100 * stat.goals + 50 * stat.assists + (1/10) * stat.minutes))

/-- The statement sequence of `apply_stat`'s body (source order). -/
def applyStatSteps (stat : StatUpdate) : List EngineStep :=
  [ ⟨fun e => (ensurePrice e stat.player_id).2, false⟩,
    ⟨fun e => { e with
        prices := setKey e.prices stat.player_id (storedValue e stat) }, false⟩,
    ⟨fun e => e, false⟩,
    ⟨fun e => e, true⟩ ]

/-- The engine states another task can observe while the step list runs from
`e`: the state at every suspension point, plus the state after the call
returns. -/
def observableStates : List EngineStep → PricingEngine → List PricingEngine
  | [], e => [e]
  | s :: rest, e =>
    (if s.suspends then [s.run e] else []) ++ observableStates rest (s.run e)

/-- C5: the four-step price update is a single logical unit: every state
another task can observe during `apply_stat` (at its unique suspension point,
`await asyncio.sleep(0)`, and after return) is the fully-updated state — no
suspension point and hence no observation lies between the price read and the
store of the final rounded price, so a partially-updated price (e.g. the
injury penalty applied but the delta not yet stored) is never observable. -/
theorem c5_apply_stat_atomic (stat : StatUpdate) (e0 : PricingEngine) :
    observableStates (applyStatSteps stat) e0
      = [(apply_stat e0 stat).2, (apply_stat e0 stat).2] := by
  cases hl : e0.prices.lookup stat.player_id with
  | some p =>
    simp [observableStates, applyStatSteps, apply_stat, ensurePrice, hl,
      storedValue, priorPrice]
  | none =>
    simp [observableStates, applyStatSteps, apply_stat, ensurePrice, hl,
      storedValue, priorPrice, lookup_append_singleton_of_none _ _ _ hl]

/-! ### `LiveMatchFeed._process_fixture` (`app/api_football_client.py`)

The feed object holds the API client it polls (its event source), the set
of already-processed event keys, a provider-to-platform player-id mapping,
and an optional reference to the pricing engine's price map (read-only
here).  `_process_fixture` receives the list of events the client returned
for one fixture and, for each event not yet seen, records its key and
broadcasts a `live_event` message. -/

/-- `PlayerEvent` dataclass of `app/api_football_client.py`. -/
structure PlayerEvent where
  player_id : ℤ
  player_name : String
  team : String
  event_type : String
  minute : ℤ
  detail : String
deriving Repr, DecidableEq

/-- State of a `LiveMatchFeed` instance.  `client` is an opaque identity for
the API client (the event source) the feed was constructed with. -/
structure FeedState where
  client : ℕ
  processed_events : List String
  player_mapping : List (ℤ × String)
  pricing : Option (List (String × ℚ))
deriving DecidableEq

/-- The broadcast payload of one `live_event` message. -/
structure LiveMsg where
  fixture_id : ℤ
  player_id : String
  player_name : String
  event : String
  detail : String
  minute : ℤ
  price : ℚ
deriving Repr, DecidableEq

/-- The deduplication key inserted into `processed_events`:
`f"{fixture_id}_{event.player_id}_{event.event_type}_{event.minute}"`. -/
def eventKey (fid : ℤ) (e : PlayerEvent) : String :=
  toString fid ++ "_" ++ toString e.player_id ++ "_" ++ e.event_type ++ "_" ++ toString e.minute

/-- `LiveMatchFeed._process_fixture` on the events returned for `fid`: skip an
event whose key is already in the seen-set, otherwise insert the key and emit
the `live_event` message.  Returns the emitted messages and the new state. -/
def processFixture (st : FeedState) (fid : ℤ) : List PlayerEvent → List LiveMsg × FeedState
  | [] => ([], st)
  | e :: rest =>
    let k := eventKey fid e
    if k ∈ st.processed_events then processFixture st fid rest
    else
      let st' := { st with processed_events := st.processed_events ++ [k] }
      let ourId := (st.player_mapping.lookup e.player_id).getD (toString e.player_id)
      let msg : LiveMsg :=
        ⟨fid, ourId, e.player_name, e.event_type, e.detail, e.minute,
          match st.pricing with
          | some prices => (prices.lookup ourId).getD 1000
          | none => 1000⟩
      let r := processFixture st' fid rest
      (msg :: r.1, r.2)

theorem processFixture_client (st : FeedState) (fid : ℤ) (evs : List PlayerEvent) :
    (processFixture st fid evs).2.client = st.client
      ∧ (processFixture st fid evs).2.player_mapping = st.player_mapping
      ∧ (processFixture st fid evs).2.pricing = st.pricing := by
  induction evs generalizing st with
  | nil => simp [processFixture]
  | cons e rest ih =>
    by_cases h : eventKey fid e ∈ st.processed_events
    · simpa [processFixture, h] using ih st
    · simpa [processFixture, h] using
        ih { st with processed_events := st.processed_events ++ [eventKey fid e] }

theorem processFixture_seen_mono (st : FeedState) (fid : ℤ) (evs : List PlayerEvent)
    (k : String) (hk : k ∈ st.processed_events) :
    k ∈ (processFixture st fid evs).2.processed_events := by
  induction evs generalizing st with
  | nil => simpa [processFixture] using hk
  | cons e rest ih =>
    by_cases h : eventKey fid e ∈ st.processed_events
    · simpa [processFixture, h] using ih st hk
    · simp only [processFixture, h, if_false]
      exact ih _ (by simp [hk])

theorem processFixture_key_mem (st : FeedState) (fid : ℤ) (evs : List PlayerEvent)
    (e : PlayerEvent) (he : e ∈ evs) :
    eventKey fid e ∈ (processFixture st fid evs).2.processed_events := by
  induction evs generalizing st with
  | nil => cases he
  | cons e' rest ih =>
    by_cases h : eventKey fid e' ∈ st.processed_events
    · rcases List.mem_cons.mp he with rfl | hmem
      · simpa [processFixture, h] using processFixture_seen_mono st fid rest _ h
      · simpa [processFixture, h] using ih st hmem
    · simp only [processFixture, h, if_false]
      rcases List.mem_cons.mp he with rfl | hmem
      · exact processFixture_seen_mono _ fid rest _ (by simp)
      · exact ih _ hmem

theorem processFixture_all_seen (st : FeedState) (fid : ℤ) (evs : List PlayerEvent)
    (h : ∀ e ∈ evs, eventKey fid e ∈ st.processed_events) :
    processFixture st fid evs = ([], st) := by
  induction evs with
  | nil => simp [processFixture]
  | cons e rest ih =>
    have he : eventKey fid e ∈ st.processed_events := h e (by simp)
    simp only [processFixture, he, if_true]
    exact ih fun e' he' => h e' (by simp [he'])

theorem processFixture_append (st : FeedState) (fid : ℤ) (a b : List PlayerEvent) :
    processFixture st fid (a ++ b)
      = ((processFixture st fid a).1 ++ (processFixture (processFixture st fid a).2 fid b).1,
         (processFixture (processFixture st fid a).2 fid b).2) := by
  induction a generalizing st with
  | nil => simp [processFixture]
  | cons e rest ih =>
    by_cases h : eventKey fid e ∈ st.processed_events
    · simpa [processFixture, h] using ih st
    · simp [processFixture, h, ih]

/-- C2: processing a batch of raw fixture events is idempotent through the
seen-set.  Replaying the already-processed batch emits no message and changes
no state; duplicating the batch within one call (the same physical events
appearing twice) emits exactly the messages of the single batch; and
`_process_fixture` never changes the price map (its `pricing` reference is
read-only), so a replay produces no price change.  An event whose key is in
the seen-set is discarded before any further handling; otherwise its key is
inserted and the event passes through. -/
theorem c2_dedup_idempotent (st : FeedState) (fid : ℤ) (evs : List PlayerEvent) :
    processFixture (processFixture st fid evs).2 fid evs
        = ([], (processFixture st fid evs).2)
      ∧ processFixture st fid (evs ++ evs) = processFixture st fid evs
      ∧ (processFixture st fid evs).2.pricing = st.pricing := by
  have hseen : ∀ e ∈ evs, eventKey fid e ∈ (processFixture st fid evs).2.processed_events :=
    fun e he => processFixture_key_mem st fid evs e he
  have hre : processFixture (processFixture st fid evs).2 fid evs
      = ([], (processFixture st fid evs).2) :=
    processFixture_all_seen _ fid evs hseen
  refine ⟨hre, ?_, (processFixture_client st fid evs).2.2⟩
  rw [processFixture_append, hre]
  simp

/-! ### Decimal representations contain no separator characters -/

theorem digitChar_eq_star {n : ℕ} (h : 16 ≤ n) : Nat.digitChar n = '*' := by
  simp [Nat.digitChar, show n ≠ 0 by omega, show n ≠ 1 by omega, show n ≠ 2 by omega,
    show n ≠ 3 by omega, show n ≠ 4 by omega, show n ≠ 5 by omega, show n ≠ 6 by omega,
    show n ≠ 7 by omega, show n ≠ 8 by omega, show n ≠ 9 by omega, show n ≠ 10 by omega,
    show n ≠ 11 by omega, show n ≠ 12 by omega, show n ≠ 13 by omega, show n ≠ 14 by omega,
    show n ≠ 15 by omega]

theorem digitChar_ne_underscore (n : ℕ) : Nat.digitChar n ≠ '_' := by
  rcases Nat.lt_or_ge n 16 with h | h
  · interval_cases n <;> decide
  · rw [digitChar_eq_star h]
    decide

theorem digitChar_ne_dash (n : ℕ) : Nat.digitChar n ≠ '-' := by
  rcases Nat.lt_or_ge n 16 with h | h
  · interval_cases n <;> decide
  · rw [digitChar_eq_star h]
    decide

theorem toDigitsCore_avoids (b fuel : ℕ) (bad : Char)
    (hbad : ∀ k, Nat.digitChar k ≠ bad) :
    ∀ (n : ℕ) (ds : List Char), (∀ c ∈ ds, c ≠ bad) →
      ∀ c ∈ Nat.toDigitsCore b fuel n ds, c ≠ bad := by
  induction fuel with
  | zero => intro n ds hds; simpa [Nat.toDigitsCore] using hds
  | succ fuel ih =>
    intro n ds hds c hc
    simp only [Nat.toDigitsCore] at hc
    by_cases h0 : n / b = 0
    · simp only [h0, if_true] at hc
      rcases List.mem_cons.mp hc with rfl | hmem
      · exact hbad _
      · exact hds c hmem
    · simp only [h0, if_false] at hc
      refine ih (n / b) (Nat.digitChar (n % b) :: ds) ?_ c hc
      intro c2 hc2
      rcases List.mem_cons.mp hc2 with rfl | hmem
      · exact hbad _
      · exact hds c2 hmem

theorem natRepr_no_underscore (n : ℕ) : '_' ∉ (Nat.repr n).data := fun h =>
  toDigitsCore_avoids 10 (n + 1) '_' digitChar_ne_underscore n [] (by simp) '_' h rfl

theorem natRepr_no_dash (n : ℕ) : '-' ∉ (Nat.repr n).data := fun h =>
  toDigitsCore_avoids 10 (n + 1) '-' digitChar_ne_dash n [] (by simp) '-' h rfl

/-! ### The decimal representation of a natural number is injective -/

theorem natRepr_data (n : ℕ) : (Nat.repr n).data = Nat.toDigits 10 n := rfl

theorem toDigitsCore_acc (b : ℕ) :
    ∀ (fuel n : ℕ) (ds : List Char),
      Nat.toDigitsCore b fuel n ds = Nat.toDigitsCore b fuel n [] ++ ds := by
  intro fuel
  induction fuel with
  | zero => intro n ds; simp [Nat.toDigitsCore]
  | succ fuel ih =>
    intro n ds
    simp only [Nat.toDigitsCore]
    by_cases h0 : n / b = 0
    · simp [h0]
    · simp only [h0, if_false]
      rw [ih (n / b) (Nat.digitChar (n % b) :: ds), ih (n / b) [Nat.digitChar (n % b)]]
      simp

theorem toDigitsCore_fuel_stable :
    ∀ (n fuel fuel' : ℕ), n < fuel → n < fuel' →
      Nat.toDigitsCore 10 fuel n [] = Nat.toDigitsCore 10 fuel' n [] := by
  intro n
  induction n using Nat.strong_induction_on with
  | _ n ih =>
    intro fuel fuel' h h'
    match fuel, fuel' with
    | f + 1, f' + 1 =>
      simp only [Nat.toDigitsCore]
      by_cases h0 : n / 10 = 0
      · simp [h0]
      · simp only [h0, if_false]
        have hpos : 0 < n := Nat.pos_of_ne_zero fun hn => by simp [hn] at h0
        have hlt : n / 10 < n := Nat.div_lt_self hpos (by norm_num)
        rw [toDigitsCore_acc 10 f, toDigitsCore_acc 10 f',
          ih (n / 10) hlt f f' (by omega) (by omega)]

/-- One-step characterization of `Nat.toDigits 10`. -/
theorem toDigits10_eq (n : ℕ) :
    Nat.toDigits 10 n =
      if n < 10 then [Nat.digitChar n]
      else Nat.toDigits 10 (n / 10) ++ [Nat.digitChar (n % 10)] := by
  by_cases h : n < 10
  · have h0 : n / 10 = 0 := Nat.div_eq_of_lt h
    simp [Nat.toDigits, Nat.toDigitsCore, h0, h, Nat.mod_eq_of_lt h]
  · have h0 : ¬ n / 10 = 0 := by omega
    have hpos : 0 < n := by omega
    have hlt : n / 10 < n := Nat.div_lt_self hpos (by norm_num)
    simp only [h, if_false]
    show Nat.toDigitsCore 10 (n + 1) n [] = _
    simp only [Nat.toDigitsCore, h0, if_false]
    rw [toDigitsCore_acc 10 n (n / 10),
      toDigitsCore_fuel_stable (n / 10) n (n / 10 + 1) (by omega) (by omega)]
    rfl

theorem toDigits10_ne_nil (n : ℕ) : Nat.toDigits 10 n ≠ [] := by
  rw [toDigits10_eq]
  by_cases h : n < 10 <;> simp [h]

theorem digitChar_inj_lt {a b : ℕ} (ha : a < 10) (hb : b < 10)
    (h : Nat.digitChar a = Nat.digitChar b) : a = b := by
  interval_cases a <;> interval_cases b <;> revert h <;> decide

theorem toDigits10_inj : ∀ (n m : ℕ), Nat.toDigits 10 n = Nat.toDigits 10 m → n = m := by
  intro n
  induction n using Nat.strong_induction_on with
  | _ n ih =>
    intro m h
    rw [toDigits10_eq n, toDigits10_eq m] at h
    by_cases hn : n < 10 <;> by_cases hm : m < 10
    · simp only [hn, hm, if_true, List.cons.injEq] at h
      exact digitChar_inj_lt hn hm h.1
    · exfalso
      simp only [hn, hm, if_true, if_false] at h
      have hlen := congrArg List.length h
      simp only [List.length_cons, List.length_append, List.length_nil] at hlen
      have h0 : (Nat.toDigits 10 (m / 10)).length = 0 := by omega
      exact toDigits10_ne_nil (m / 10) (List.length_eq_zero.mp h0)
    · exfalso
      simp only [hn, hm, if_true, if_false] at h
      have hlen := congrArg List.length h
      simp only [List.length_cons, List.length_append, List.length_nil] at hlen
      have h0 : (Nat.toDigits 10 (n / 10)).length = 0 := by omega
      exact toDigits10_ne_nil (n / 10) (List.length_eq_zero.mp h0)
    · simp only [hn, hm, if_false] at h
      have hrev := congrArg List.reverse h
      simp only [List.reverse_append, List.reverse_cons, List.reverse_nil,
        List.nil_append, List.singleton_append, List.cons.injEq] at hrev
      have hmod : n % 10 = m % 10 :=
        digitChar_inj_lt (Nat.mod_lt _ (by norm_num)) (Nat.mod_lt _ (by norm_num)) hrev.1
      have hdiv : n / 10 = m / 10 := by
        have hpos : 0 < n := by omega
        have hlt : n / 10 < n := Nat.div_lt_self hpos (by norm_num)
        exact ih (n / 10) hlt (m / 10)
          (List.reverse_injective hrev.2)
      omega

theorem natRepr_inj {n m : ℕ} (h : Nat.repr n = Nat.repr m) : n = m :=
  toDigits10_inj n m (by simpa [Nat.repr, List.asString_inj] using h)

theorem intRepr_data_ofNat (m : ℕ) : (Int.repr (Int.ofNat m)).data = (Nat.repr m).data := rfl

theorem intRepr_data_negSucc (m : ℕ) :
    (Int.repr (Int.negSucc m)).data = '-' :: (Nat.repr (m + 1)).data := rfl

theorem intRepr_no_underscore (i : ℤ) : '_' ∉ (Int.repr i).data := by
  cases i with
  | ofNat m => simpa [intRepr_data_ofNat] using natRepr_no_underscore m
  | negSucc m =>
    rw [intRepr_data_negSucc]
    intro h
    rcases List.mem_cons.mp h with h1 | h2
    · cases h1
    · exact natRepr_no_underscore (m + 1) h2

theorem intRepr_inj : ∀ {i j : ℤ}, Int.repr i = Int.repr j → i = j := by
  intro i j h
  have hd := congrArg String.data h
  cases i with
  | ofNat m =>
    cases j with
    | ofNat k =>
      rw [intRepr_data_ofNat, intRepr_data_ofNat] at hd
      exact congrArg Int.ofNat (natRepr_inj (String.toList_inj.mp hd))
    | negSucc k =>
      exfalso
      rw [intRepr_data_ofNat, intRepr_data_negSucc] at hd
      exact natRepr_no_dash m (hd ▸ List.mem_cons_self '-' _)
  | negSucc m =>
    cases j with
    | ofNat k =>
      exfalso
      rw [intRepr_data_negSucc, intRepr_data_ofNat] at hd
      exact natRepr_no_dash k (hd ▸ List.mem_cons_self '-' _)
    | negSucc k =>
      rw [intRepr_data_negSucc, intRepr_data_negSucc] at hd
      have h2 : (Nat.repr (m + 1)).data = (Nat.repr (k + 1)).data :=
        List.tail_eq_of_cons_eq hd
      have hmk := natRepr_inj (String.toList_inj.mp h2)
      have : m = k := by omega
      rw [this]

theorem toString_int (i : ℤ) : toString i = Int.repr i := rfl

theorem toString_int_inj {i j : ℤ} (h : toString i = toString j) : i = j :=
  intRepr_inj (by rwa [toString_int, toString_int] at h)

theorem toString_int_no_underscore (i : ℤ) : '_' ∉ (toString i).data := by
  rw [toString_int]
  exact intRepr_no_underscore i

/-! ### Splitting a string at an underscore separator is unambiguous -/

theorem sep_split : ∀ (a b r r2 : List Char), '_' ∉ a → '_' ∉ b →
    a ++ '_' :: r = b ++ '_' :: r2 → a = b ∧ r = r2 := by
  intro a
  induction a with
  | nil =>
    intro b r r2 _ hb h
    cases b with
    | nil => simpa using h
    | cons c bs =>
      exfalso
      simp only [List.nil_append, List.cons_append, List.cons.injEq] at h
      apply hb
      rw [← h.1]
      exact List.mem_cons_self _ _
  | cons c as ih =>
    intro b r r2 ha hb h
    cases b with
    | nil =>
      exfalso
      simp only [List.nil_append, List.cons_append, List.cons.injEq] at h
      apply ha
      rw [h.1]
      exact List.mem_cons_self _ _
    | cons d bs =>
      simp only [List.cons_append, List.cons.injEq] at h
      obtain ⟨rfl, h2⟩ := h
      have ha2 : '_' ∉ as := fun hm => ha (List.mem_cons_of_mem _ hm)
      have hb2 : '_' ∉ bs := fun hm => hb (List.mem_cons_of_mem _ hm)
      obtain ⟨he, hr⟩ := ih bs r r2 ha2 hb2 h2
      exact ⟨by rw [he], hr⟩

/-- A four-component key as a character list:
`A ++ "_" ++ B ++ "_" ++ T ++ "_" ++ M`. -/
def listKey (A B T M : List Char) : List Char :=
  A ++ '_' :: (B ++ '_' :: (T ++ '_' :: M))

theorem listKey_inj (A B T M A2 B2 T2 M2 : List Char)
    (hA : '_' ∉ A) (hA2 : '_' ∉ A2) (hB : '_' ∉ B) (hB2 : '_' ∉ B2)
    (hM : '_' ∉ M) (hM2 : '_' ∉ M2)
    (h : listKey A B T M = listKey A2 B2 T2 M2) :
    A = A2 ∧ B = B2 ∧ T = T2 ∧ M = M2 := by
  obtain ⟨hAe, h2⟩ := sep_split A A2 _ _ hA hA2 h
  obtain ⟨hBe, h3⟩ := sep_split B B2 _ _ hB hB2 h2
  have h4 : M.reverse ++ '_' :: T.reverse = M2.reverse ++ '_' :: T2.reverse := by
    have := congrArg List.reverse h3
    simpa [List.reverse_append] using this
  obtain ⟨hMe, hTe⟩ := sep_split M.reverse M2.reverse T.reverse T2.reverse
    (by simpa using hM) (by simpa using hM2) h4
  exact ⟨hAe, hBe, List.reverse_injective hTe, List.reverse_injective hMe⟩

theorem underscore_data : ("_" : String).data = ['_'] := rfl

theorem eventKey_data (fid : ℤ) (e : PlayerEvent) :
    (eventKey fid e).data
      = listKey (toString fid).data (toString e.player_id).data
          e.event_type.data (toString e.minute).data := by
  simp [eventKey, listKey, String.data_append, underscore_data]

/-- C3 (amended): the deduplication identity inserted into the seen-set is the
composite of exactly four components — fixture id, player id, event type, and
minute (there is no source-id component) — and two events differing in any one
of these four components are never assigned the same key, hence never treated
as duplicates of each other. -/
theorem c3_event_key_four_components (fid fid2 : ℤ) (e e2 : PlayerEvent) :
    eventKey fid e = eventKey fid2 e2
      ↔ (fid = fid2 ∧ e.player_id = e2.player_id
          ∧ e.event_type = e2.event_type ∧ e.minute = e2.minute) := by
  constructor
  · intro h
    have hd := congrArg String.data h
    rw [eventKey_data, eventKey_data] at hd
    obtain ⟨hA, hB, hT, hM⟩ := listKey_inj _ _ _ _ _ _ _ _
      (toString_int_no_underscore fid) (toString_int_no_underscore fid2)
      (toString_int_no_underscore e.player_id) (toString_int_no_underscore e2.player_id)
      (toString_int_no_underscore e.minute) (toString_int_no_underscore e2.minute) hd
    exact ⟨toString_int_inj (String.toList_inj.mp hA),
      toString_int_inj (String.toList_inj.mp hB),
      String.toList_inj.mp hT,
      toString_int_inj (String.toList_inj.mp hM)⟩
  · rintro ⟨rfl, h1, h2, h3⟩
    simp [eventKey, h1, h2, h3]

/-- C3 counterexample to the claim as stated: the key has no source-id
component.  The same raw event ingested through two different sources (feed
states differing only in their `client`) is assigned the same key
`"7_10_Goal_23"` — four components — and once one source has recorded it, the
other source's copy is treated as a duplicate and discarded, although the two
ingestions differ in the source-id component the claim lists. -/
theorem c3_counterexample_no_source_component :
    (FeedState.mk 1 [] [] none).client ≠ (FeedState.mk 2 [] [] none).client
      ∧ (processFixture ⟨1, [], [], none⟩ 7
            [⟨10, "Neymar", "PSG", "Goal", 23, "Normal Goal"⟩]).2.processed_events
          = ["7_10_Goal_23"]
      ∧ processFixture
            ⟨2, (processFixture ⟨1, [], [], none⟩ 7
                  [⟨10, "Neymar", "PSG", "Goal", 23, "Normal Goal"⟩]).2.processed_events,
              [], none⟩ 7
            [⟨10, "Neymar", "PSG", "Goal", 23, "Normal Goal"⟩]
          = ([], ⟨2, ["7_10_Goal_23"], [], none⟩) := by
  refine ⟨by decide, ?_, ?_⟩ <;> decide

/-! ### `broadcast` (`app/main.py` / `app/main_production.py`)

Subscribers are modelled by their identity (ℕ); a delivery predicate `send`
says whether `await ws.send_json(message)` succeeds or raises for a given
subscriber.  The loop iterates the client list as it was when the loop
started, collecting failed subscribers into `to_remove`, and only after the
iteration completes removes them (Python `list.remove`: first occurrence)
from the live client list. -/

/-- The delivery loop: first result is the subscribers whose delivery
succeeded (in iteration order), second is `to_remove` (failed ones, in
iteration order). -/
def broadcastLoop (send : ℕ → Bool) : List ℕ → List ℕ × List ℕ
  | [] => ([], [])
  | ws :: rest =>
    let r := broadcastLoop send rest
    if send ws then (ws :: r.1, r.2) else (r.1, ws :: r.2)

/-- `broadcast`: attempt delivery to every client in the current list, then
evict each failed client (first occurrence) after the iteration completes.
Returns (clients that received the message, new client list). -/
def broadcast (clients : List ℕ) (send : ℕ → Bool) : List ℕ × List ℕ :=
  let r := broadcastLoop send clients
  (r.1, List.foldl (fun l w => l.erase w) clients r.2)

theorem broadcastLoop_fst (send : ℕ → Bool) (l : List ℕ) :
    (broadcastLoop send l).1 = l.filter send := by
  induction l with
  | nil => simp [broadcastLoop]
  | cons ws rest ih =>
    by_cases h : send ws <;> simp [broadcastLoop, h, List.filter_cons, ih]

theorem broadcastLoop_snd (send : ℕ → Bool) (l : List ℕ) :
    (broadcastLoop send l).2 = l.filter (fun c => !send c) := by
  induction l with
  | nil => simp [broadcastLoop]
  | cons ws rest ih =>
    by_cases h : send ws <;> simp [broadcastLoop, h, List.filter_cons, ih]

theorem count_foldl_erase (m : List ℕ) :
    ∀ (l : List ℕ) (c : ℕ),
      (List.foldl (fun l w => l.erase w) l m).count c ≤ l.count c - m.count c := by
  induction m with
  | nil => intro l c; simp
  | cons b ms ih =>
    intro l c
    have h1 := ih (l.erase b) c
    by_cases hcb : c = b
    · subst hcb
      rw [List.count_erase_self] at h1
      simp only [List.foldl_cons, List.count_cons_self]
      omega
    · rw [List.count_erase_of_ne hcb] at h1
      simp only [List.foldl_cons]
      rw [List.count_cons_of_ne hcb]
      omega

/-- C4: for every broadcast of one message to the current subscriber list,
(1) the subscribers that receive the message are exactly those whose delivery
succeeds, in iteration order — so one subscriber's failure never prevents
delivery to any other; (2) every subscriber whose delivery succeeds receives
the message; (3) every subscriber whose delivery fails is removed from the
active list, the removal happening only after the iteration over the
(unmutated) snapshot list completes. -/
theorem c4_broadcast_fault_isolation (clients : List ℕ) (send : ℕ → Bool) :
    (broadcast clients send).1 = clients.filter send
      ∧ (∀ c ∈ clients, send c = true → c ∈ (broadcast clients send).1)
      ∧ (∀ c ∈ clients, send c = false → c ∉ (broadcast clients send).2) := by
  refine ⟨broadcastLoop_fst send clients, ?_, ?_⟩
  · intro c hc hs
    rw [show (broadcast clients send).1 = (broadcastLoop send clients).1 from rfl,
      broadcastLoop_fst]
    exact List.mem_filter.mpr ⟨hc, hs⟩
  · intro c hc hs
    intro hmem
    have h0 := count_foldl_erase (broadcastLoop send clients).2 clients c
    have h1 : (broadcast clients send).2.count c
        ≤ clients.count c - ((clients.filter (fun x => !send x)).count c) := by
      have hb : (broadcast clients send).2
          = List.foldl (fun l w => l.erase w) clients (broadcastLoop send clients).2 := rfl
      rw [hb, ← broadcastLoop_snd send clients]
      exact h0
    have hp : (fun x => !send x) c = true := by simp [hs]
    have h2 : List.count c (List.filter (fun x => !send x) clients)
        = List.count c clients :=
      List.count_filter (p := fun x => !send x) hp
    rw [h2] at h1
    have hpos := List.count_pos_iff.mpr hmem
    omega

/-- Witness for C4: subscribers 1,2,3 where delivery to 2 fails: 1 and 3
receive the message and 2 is evicted. -/
theorem c4_broadcast_fault_isolation_witness :
    (broadcast [1, 2, 3] (fun c => c != 2)).1 = [1, 3]
      ∧ (3 ∈ (broadcast [1, 2, 3] (fun c => c != 2)).1)
      ∧ 2 ∉ (broadcast [1, 2, 3] (fun c => c != 2)).2 := by
  have h := c4_broadcast_fault_isolation [1, 2, 3] (fun c => c != 2)
  exact ⟨h.1.trans (by decide), h.2.1 3 (by decide) (by decide),
    h.2.2 2 (by decide) (by decide)⟩

/-! ### `start()` on the three event-source variants -/

/-- Lifecycle state of an event source: the running flag and the number of
producing tasks spawned so far (`asyncio.create_task` calls). -/
structure SourceState where
  running : Bool
  tasks : ℕ
deriving DecidableEq, Repr

/-- `Simulator.start` (`app/simulator.py`): returns immediately when already
running, otherwise sets the flag and spawns the producing task. -/
def simulatorStart (s : SourceState) : SourceState :=
  if s.running then s else { running := true, tasks := s.tasks + 1 }

/-- `LiveDataProvider.start` (`app/data_provider.py`): unconditionally sets
`running = True` and spawns a new polling task. -/
def liveDataProviderStart (s : SourceState) : SourceState :=
  { running := true, tasks := s.tasks + 1 }

/-- `LiveMatchFeed.start` (`app/api_football_client.py`): unconditionally sets
`_running = True` and spawns a new polling task. -/
def liveMatchFeedStart (s : SourceState) : SourceState :=
  { running := true, tasks := s.tasks + 1 }

/-- C8 counterexample to the claim as stated: calling `start()` on an
already-running `LiveDataProvider` or `LiveMatchFeed` is not a no-op — each
call spawns an additional producing task. -/
theorem c8_counterexample_start_not_noop :
    liveDataProviderStart ⟨true, 1⟩ ≠ ⟨true, 1⟩
      ∧ (liveDataProviderStart ⟨true, 1⟩).tasks = 2
      ∧ liveMatchFeedStart ⟨true, 1⟩ ≠ ⟨true, 1⟩
      ∧ (liveMatchFeedStart ⟨true, 1⟩).tasks = 2 := by
  decide

/-- C8 (amended): `start()` on an already-running source is a no-op only for
the synthetic `Simulator` variant (it is guarded by the running flag); the
polling variants `LiveDataProvider` and `LiveMatchFeed` have no guard — a
`start()` while running leaves the flag set but spawns one additional
producing task. -/
theorem c8_start_idempotent_only_for_simulator (s : SourceState)
    (h : s.running = true) :
    simulatorStart s = s
      ∧ (liveDataProviderStart s).tasks = s.tasks + 1
      ∧ (liveMatchFeedStart s).tasks = s.tasks + 1 := by
  refine ⟨?_, rfl, rfl⟩
  simp [simulatorStart, h]

/-- Witness for C8 (amended) at the running state ⟨true, 1⟩. -/
theorem c8_start_idempotent_only_for_simulator_witness :
    simulatorStart ⟨true, 1⟩ = ⟨true, 1⟩
      ∧ (liveDataProviderStart ⟨true, 1⟩).tasks = 2
      ∧ (liveMatchFeedStart ⟨true, 1⟩).tasks = 2 :=
  c8_start_idempotent_only_for_simulator ⟨true, 1⟩ rfl

/-! ### `process_statsbomb` (`app/data_provider.py`)

The normalizer receives an arbitrary decoded JSON/Python payload.  We embed
Python values as `PyVal` (numbers restricted to integers), Python truthiness,
`dict.get`, the short-circuiting `or`, `str()`, `int()`, `.lower()` and
iteration.  Operations that can raise (`.lower()` on a non-string, iterating
a non-iterable) return `Except PyErr`; the whole normalizer is threaded
through `Except`, an `.error` result meaning the Python function raises. -/

/-! A Python value as appearing in a decoded payload.  Lists and dicts are
given their own (mutually inductive) spine so that recursion over values is
structural. -/
mutual

inductive PyVal where
  | none : PyVal
  | pbool : Bool → PyVal
  | pint : ℤ → PyVal
  | pstr : String → PyVal
  | plist : PyList → PyVal
  | pdict : PyDict → PyVal

inductive PyList where
  | nil : PyList
  | cons : PyVal → PyList → PyList

inductive PyDict where
  | nil : PyDict
  | cons : String → PyVal → PyDict → PyDict

end

/-- Build an embedded list from a Lean list (notation helper only). -/
def mkList (l : List PyVal) : PyList :=
  l.foldr PyList.cons .nil

/-- Build an embedded dict from a Lean association list (notation helper). -/
def mkDict (l : List (String × PyVal)) : PyDict :=
  l.foldr (fun kv d => PyDict.cons kv.1 kv.2 d) .nil

/-- The elements of an embedded list. -/
def PyList.toList : PyList → List PyVal
  | .nil => []
  | .cons x tl => x :: tl.toList

/-- First binding of a key in an embedded dict (Python dicts hold at most one
binding per key; payload dicts are used read-only here). -/
def PyDict.lookup : PyDict → String → Option PyVal
  | .nil, _ => Option.none
  | .cons k v tl, q => if k = q then some v else tl.lookup q

/-- The keys of an embedded dict, in order. -/
def PyDict.keys : PyDict → List String
  | .nil => []
  | .cons k _ tl => k :: tl.keys

/-- A Python exception (only the kinds the embedded code can raise). -/
inductive PyErr where
  | attributeError : PyErr
  | typeError : PyErr
deriving Repr, DecidableEq

/-- Python truthiness. -/
def truthy : PyVal → Bool
  | .none => false
  | .pbool b => b
  | .pint n => n != 0
  | .pstr s => s != ""
  | .plist .nil => false
  | .plist (.cons _ _) => true
  | .pdict .nil => false
  | .pdict (.cons _ _ _) => true

/-- Python's short-circuiting `a or b` (returns `a` when truthy, else `b`). -/
def pyOr (a b : PyVal) : PyVal := if truthy a then a else b

/-- `d.get(k)` (None when absent; call sites guard that `d` is a dict). -/
def dget (v : PyVal) (k : String) : PyVal :=
  match v with
  | .pdict l => (l.lookup k).getD .none
  | _ => .none

mutual

/-- Python `repr(v)`. -/
def pyRepr : PyVal → String
  | .none => "None"
  | .pbool true => "True"
  | .pbool false => "False"
  | .pint n => toString n
  | .pstr s => "\x27" ++ s ++ "\x27"
  | .plist l => "[" ++ pyReprList l ++ "]"
  | .pdict l => "\x7b" ++ pyReprDict l ++ "\x7d"

/-- Comma-separated reprs of the elements of a list. -/
def pyReprList : PyList → String
  | .nil => ""
  | .cons x .nil => pyRepr x
  | .cons x (.cons y tl) => pyRepr x ++ ", " ++ pyReprList (.cons y tl)

/-- Comma-separated `key: repr(value)` entries of a dict. -/
def pyReprDict : PyDict → String
  | .nil => ""
  | .cons k v .nil => "\x27" ++ k ++ "\x27: " ++ pyRepr v
  | .cons k v (.cons k2 v2 tl) =>
      "\x27" ++ k ++ "\x27: " ++ pyRepr v ++ ", " ++ pyReprDict (.cons k2 v2 tl)

end

/-- Python `str(v)`: the string itself for strings, `repr` otherwise. -/
def pyStr : PyVal → String
  | .pstr s => s
  | v => pyRepr v

/-- `.lower()` on a string (ASCII case mapping; kept as a plain structural
map so concrete runs reduce). -/
def strLower (s : String) : String := ⟨s.data.map Char.toLower⟩

/-- `v.lower()`: succeeds only on strings, raising `AttributeError` on any
other value. -/
def pyLower : PyVal → Except PyErr String
  | .pstr s => .ok (strLower s)
  | _ => .error .attributeError

/-- `int(v)` as a partial function (`none` = raises); only used under
`try/except` where a raise falls back to 0. -/
def pyToIntOpt : PyVal → Option ℤ
  | .pint n => some n
  | .pbool b => some (if b then 1 else 0)
  | .pstr s => s.trim.toInt?
  | _ => Option.none

/-- Iterating a Python value (`for x in v`): lists yield elements, dicts
their keys, strings their characters; other values raise `TypeError`. -/
def pyIter : PyVal → Except PyErr (List PyVal)
  | .plist l => .ok l.toList
  | .pdict l => .ok (l.keys.map PyVal.pstr)
  | .pstr s => .ok (s.data.map fun c => .pstr (String.singleton c))
  | _ => .error .typeError

/-- Is `pre` a prefix of `l`? -/
def charsPre : List Char → List Char → Bool
  | [], _ => true
  | _ :: _, [] => false
  | a :: as, b :: bs => a == b && charsPre as bs

/-- Does `sub` occur as a contiguous run inside `l`? -/
def charsInfix (sub : List Char) : List Char → Bool
  | [] => charsPre sub []
  | b :: bs => charsPre sub (b :: bs) || charsInfix sub bs

/-- Python `sub in s` (substring containment). -/
def strContains (s sub : String) : Bool := charsInfix sub.data s.data

/-- Python `s.startswith(pre)`. -/
def strStarts (s pre : String) : Bool := charsPre pre.data s.data

/-- `"goal" in tname or "shot - goal" in tname or tname.startswith("goal")`. -/
def isGoalLabel (tname : String) : Bool :=
  strContains tname "goal" || strContains tname "shot - goal"
    || strStarts tname "goal"

/-- `"injur" in tname or "injury" in tname or "injured" in tname`. -/
def isInjuryLabel (tname : String) : Bool :=
  strContains tname "injur" || strContains tname "injury"
    || strContains tname "injured"

/-- `"assist" in role or "assister" in role`. -/
def isAssistRole (role : String) : Bool :=
  strContains role "assist" || strContains role "assister"

/-- `minute` extraction: `int(ev.get("minute") or ev.get("min") or 0)` under
`try/except` defaulting to 0. -/
def minuteOf (ev : PyVal) : ℤ :=
  (pyToIntOpt (pyOr (dget ev "minute") (pyOr (dget ev "min") (.pint 0)))).getD 0

/-- Normalized type name: `t = ev.get("type") or {}`; for dicts
`(t.get("name") or "").lower()` (which raises on a truthy non-string name),
otherwise `str(t).lower() if t else ""`. -/
def tnameOf (ev : PyVal) : Except PyErr String :=
  let t := pyOr (dget ev "type") (.pdict .nil)
  match t with
  | .pdict _ => pyLower (pyOr (dget t "name") (.pstr ""))
  | _ => if truthy t then .ok (strLower (pyStr t)) else .ok ""

/-- Resolve an athlete reference: for dict objects
`obj.get(k1) or obj.get(k2)`, otherwise the object itself. -/
def resolveRef (pobj : PyVal) (k1 k2 : String) : PyVal :=
  match pobj with
  | .pdict _ => pyOr (dget pobj k1) (dget pobj k2)
  | _ => pobj

/-- The primary athlete id of an event, as the string key used for
aggregation; `none` when the resolved Python value is `None`
(`_ensure` returns `None` exactly on `pid is None`). -/
def mainPid (ev : PyVal) : Option String :=
  let pobj := pyOr (dget ev "player") (pyOr (dget ev "player_id") (dget ev "playerId"))
  match resolveRef pobj "id" "player_id" with
  | .none => Option.none
  | v => some (pyStr v)

/-- The athlete id of a related-athlete entry. -/
def relPid (r : PyVal) : Option String :=
  let rp := pyOr (dget r "player") (pyOr (dget r "player_id") (dget r "id"))
  match resolveRef rp "id" "player_id" with
  | .none => Option.none
  | v => some (pyStr v)

/-- `(r.get("role") or r.get("type") or "").lower()` (may raise). -/
def roleOf (r : PyVal) : Except PyErr String :=
  pyLower (pyOr (dget r "role") (pyOr (dget r "type") (.pstr "")))

/-- `ev.get("related_players") or ev.get("relatedPlayers") or
ev.get("related") or []`. -/
def relatedOf (ev : PyVal) : PyVal :=
  pyOr (dget ev "related_players")
    (pyOr (dget ev "relatedPlayers") (pyOr (dget ev "related") (.plist .nil)))

/-- One aggregation record of `by_player`:
`{"goals": 0, "assists": 0, "minutes": 0, "injury": False}`. -/
structure PRec where
  goals : ℤ
  assists : ℤ
  minutes : ℤ
  injury : Bool
deriving Repr, DecidableEq

/-- The fresh record `_ensure` installs. -/
def zeroRec : PRec := ⟨0, 0, 0, false⟩

/-- `by_player.setdefault(pid_s, {...})`: insert a zero record when the key
is absent (insertion order = first-seen order). -/
def ensureRec (bp : List (String × PRec)) (pid : String) : List (String × PRec) :=
  if (bp.lookup pid).isSome then bp else bp ++ [(pid, zeroRec)]

/-- In-place mutation of the record stored under `pid` (Python records are
mutable dicts aliased by `_ensure`'s return value). -/
def updRec (bp : List (String × PRec)) (pid : String) (f : PRec → PRec) :
    List (String × PRec) :=
  match bp with
  | [] => []
  | (k, r) :: rest => if k = pid then (k, f r) :: rest else (k, r) :: updRec rest pid f

/-- Processing of one entry of the `related_players` list: non-dicts are
skipped; the role label is normalized (this can raise); the related athlete's
record is created; a role containing "assist" increments the athlete's assist
count and maxes the minute. -/
def procRelated (minute : ℤ) (bp : List (String × PRec)) (r : PyVal) :
    Except PyErr (List (String × PRec)) :=
  match r with
  | .pdict _ =>
      match roleOf r with
      | .error e => .error e
      | .ok role =>
          match relPid r with
          | some rid =>
              let bp1 := ensureRec bp rid
              if isAssistRole role then
                .ok (updRec bp1 rid fun pr =>
                  { pr with assists := pr.assists + 1, minutes := max pr.minutes minute })
              else
                .ok bp1
          | Option.none => .ok bp
  | _ => .ok bp

/-- Fold of `procRelated` over the related-players list. -/
def procRelatedList (minute : ℤ) :
    List (String × PRec) → List PyVal → Except PyErr (List (String × PRec))
  | bp, [] => .ok bp
  | bp, r :: rest =>
      match procRelated minute bp r with
      | .error e => .error e
      | .ok bp1 => procRelatedList minute bp1 rest

/-- The aggregation state after the primary-athlete phase of one event
(record creation, goal detection, injury detection), before the
related-players loop. -/
def preRelState (bp : List (String × PRec)) (ev : PyVal) (tname : String) :
    List (String × PRec) :=
  let minute := minuteOf ev
  let bp1 := match mainPid ev with
    | some pid => ensureRec bp pid
    | Option.none => bp
  let bp2 := if isGoalLabel tname then
      match mainPid ev with
      | some pid => updRec bp1 pid fun pr =>
          { pr with goals := pr.goals + 1, minutes := max pr.minutes minute }
      | Option.none => bp1
    else bp1
  if isInjuryLabel tname then
    match mainPid ev with
    | some pid => updRec bp2 pid fun pr => { pr with injury := true }
    | Option.none => bp2
  else bp2

/-- Processing of one raw event: non-dicts are skipped; the minute and
normalized type label are extracted (the latter can raise); the primary
athlete's record is created; goal labels increment goals and max the minute;
injury labels set the sticky injury flag; then the related-players list is
processed. -/
def procEvent (bp : List (String × PRec)) (ev : PyVal) :
    Except PyErr (List (String × PRec)) :=
  match ev with
  | .pdict _ =>
      match tnameOf ev with
      | .error e => .error e
      | .ok tname =>
          match relatedOf ev with
          | .plist rs => procRelatedList (minuteOf ev) (preRelState bp ev tname) rs.toList
          | _ => .ok (preRelState bp ev tname)
  | _ => .ok bp

/-- Fold of `procEvent` over the event list. -/
def procEvents : List (String × PRec) → List PyVal → Except PyErr (List (String × PRec))
  | bp, [] => .ok bp
  | bp, ev :: rest =>
      match procEvent bp ev with
      | .error e => .error e
      | .ok bp1 => procEvents bp1 rest

/-- The event collection: `data.get("events") or data.get("event") or []`
for dicts (then iterated, which raises on non-iterables), the list itself
for lists, and `[]` otherwise. -/
def eventsOf (data : PyVal) : Except PyErr (List PyVal) :=
  match data with
  | .pdict _ => pyIter (pyOr (dget data "events") (pyOr (dget data "event") (.plist .nil)))
  | .plist l => .ok l.toList
  | _ => .ok []

/-- `process_statsbomb`: normalize a raw payload into one `StatUpdate` per
aggregated athlete (the callback is invoked once per emitted record; we
return the emitted records in order).  An `.error` result means the Python
coroutine raises. -/
def process_statsbomb (data : PyVal) : Except PyErr (List StatUpdate) :=
  match eventsOf data with
  | .error e => .error e
  | .ok evs =>
      match procEvents [] evs with
      | .error e => .error e
      | .ok bp =>
          .ok (bp.map fun kv =>
            { player_id := kv.1, goals := kv.2.goals, assists := kv.2.assists,
              minutes := kv.2.minutes, injury := kv.2.injury })

instance {e a : Type} [DecidableEq e] [DecidableEq a] : DecidableEq (Except e a) :=
  fun x y =>
    match x, y with
    | .ok u, .ok v =>
        if h : u = v then isTrue (by rw [h]) else isFalse fun hc => by
          cases hc; exact h rfl
    | .error u, .error v =>
        if h : u = v then isTrue (by rw [h]) else isFalse fun hc => by
          cases hc; exact h rfl
    | .ok _, .error _ => isFalse fun hc => by cases hc
    | .error _, .ok _ => isFalse fun hc => by cases hc

/-- C6: evaluation of the normalizer at the failing input
`{"events": [{"type": {"name": 1}}]}`.  The claim (and §4.1/§7 of the spec)
says the normalizer never raises and wrong-typed fields are defaulted, but a
truthy non-string `type.name` reaches `(t.get("name") or "").lower()` and the
embedded run raises `AttributeError`. -/
theorem c6_normalizer_raises_on_nonstring_type_name :
    process_statsbomb
        (.pdict (mkDict [("events",
          .plist (mkList [.pdict (mkDict [("type",
            .pdict (mkDict [("name", .pint 1)]))])]))]))
      = .error .attributeError := rfl

/-- C7 counterexample to the claim as stated: a player with a goal event at
minute 20 and an injury event at minute 75 (two events of that player in one
pass) is emitted with `minutes = 20`, not the maximum 75 — the injury event's
minute never reaches the record. -/
theorem c7_counterexample_injury_minute_ignored :
    process_statsbomb
        (.pdict (mkDict [("events", .plist (mkList [
          .pdict (mkDict [("type", .pdict (mkDict [("name", .pstr "Goal")])),
            ("player", .pdict (mkDict [("id", .pint 5)])),
            ("minute", .pint 20)]),
          .pdict (mkDict [("type", .pdict (mkDict [("name", .pstr "Injury")])),
            ("player", .pdict (mkDict [("id", .pint 5)])),
            ("minute", .pint 75)])]))]))
        = .ok [{ player_id := "5", goals := 1, assists := 0, minutes := 20,
                 injury := true }]
      ∧ (20 : ℤ) ≠ max 20 75 := by
  constructor
  · decide
  · decide

/-- C10 counterexample to the claim as stated: the payload
`{"events": [{"player": {"player_id": 0}}]}` carries an athlete id equal to
the number 0, yet a `StatUpdate` with `player_id = "0"` IS emitted: a falsy 0
produced by the LAST alternative of the or-chain
(`player_obj.get("id") or player_obj.get("player_id")`) is returned as-is,
and `_ensure` only treats `None` as absent, not 0. -/
theorem c10_counterexample_zero_id_emitted :
    process_statsbomb
        (.pdict (mkDict [("events", .plist (mkList [
          .pdict (mkDict [("player",
            .pdict (mkDict [("player_id", .pint 0)]))])]))]))
      = .ok [{ player_id := "0", goals := 0, assists := 0, minutes := 0,
               injury := false }] := by decide

/-! ### Declarative views of the aggregation (for C7 and C10) -/

/-- The normalized type label, with a raise reading as `""` (only consulted
on non-raising runs). -/
def tnameD (ev : PyVal) : String := ((tnameOf ev).toOption).getD ""

/-- The normalized role label, with a raise reading as `""`. -/
def roleD (r : PyVal) : String := ((roleOf r).toOption).getD ""

/-- The `minutes` field currently recorded for `pid` (0 when absent — the
value a fresh record starts from). -/
def minutesAt (bp : List (String × PRec)) (pid : String) : ℤ :=
  match bp.lookup pid with
  | some r => r.minutes
  | Option.none => 0

/-- The minute contributed to `pid` by one related-players entry: its
event's minute when the entry credits `pid` with an assist. -/
def relContrib (pid : String) (minute : ℤ) (r : PyVal) : List ℤ :=
  match r with
  | .pdict _ =>
      if relPid r = some pid ∧ isAssistRole (roleD r) = true then [minute] else []
  | _ => []

/-- The minutes one raw event contributes to `pid`'s record: its minute once
when it is a goal detection for `pid`, plus once per related entry crediting
`pid` with an assist. -/
def eventContrib (pid : String) (ev : PyVal) : List ℤ :=
  match ev with
  | .pdict _ =>
      (if mainPid ev = some pid ∧ isGoalLabel (tnameD ev) = true
        then [minuteOf ev] else [])
      ++ (match relatedOf ev with
          | .plist rs => (rs.toList.map (relContrib pid (minuteOf ev))).flatten
          | _ => [])
  | _ => []

/-- All minutes contributed to `pid` over a batch of raw events. -/
def contribMinutes (pid : String) (evs : List PyVal) : List ℤ :=
  (evs.map (eventContrib pid)).flatten

/-- The athlete ids one raw event resolves (primary athlete and related
entries); an event resolving no id contributes no key. -/
def eventPids (ev : PyVal) : List String :=
  match ev with
  | .pdict _ =>
      (mainPid ev).toList
      ++ (match relatedOf ev with
          | .plist rs => rs.toList.filterMap relPid
          | _ => [])
  | _ => []

/-- All athlete ids a batch of raw events resolves. -/
def resolvedPids (evs : List PyVal) : List String :=
  (evs.map eventPids).flatten

/-! ### Association-list lemmas for the aggregation state -/

theorem prec_lookup_append_none (l : List (String × PRec)) (k : String) (v : PRec)
    (h : l.lookup k = Option.none) : (l ++ [(k, v)]).lookup k = some v := by
  induction l with
  | nil => simp [List.lookup]
  | cons hd tl ih =>
    obtain ⟨k2, v2⟩ := hd
    by_cases hk : k = k2
    · subst hk
      simp [List.lookup] at h
    · simp only [List.lookup, List.cons_append, beq_eq_false_iff_ne.mpr hk] at h ⊢
      exact ih h

theorem prec_lookup_append_ne (l : List (String × PRec)) (k q : String) (v : PRec)
    (h : q ≠ k) : (l ++ [(k, v)]).lookup q = l.lookup q := by
  induction l with
  | nil => simp [List.lookup, beq_eq_false_iff_ne.mpr h]
  | cons hd tl ih =>
    obtain ⟨k2, v2⟩ := hd
    by_cases hk : q = k2
    · subst hk
      simp [List.lookup]
    · simp only [List.lookup, List.cons_append, beq_eq_false_iff_ne.mpr hk]
      exact ih

theorem lookup_ensureRec_self (bp : List (String × PRec)) (pid : String) :
    (ensureRec bp pid).lookup pid = some ((bp.lookup pid).getD zeroRec) := by
  unfold ensureRec
  cases h : bp.lookup pid with
  | some r => simp [h]
  | none => simp [h, prec_lookup_append_none bp pid zeroRec h]

theorem lookup_ensureRec_ne (bp : List (String × PRec)) (pid q : String)
    (h : q ≠ pid) : (ensureRec bp pid).lookup q = bp.lookup q := by
  unfold ensureRec
  cases hl : bp.lookup pid with
  | some r => simp [hl]
  | none => simp [hl, prec_lookup_append_ne bp pid q zeroRec h]

theorem lookup_updRec_self (bp : List (String × PRec)) (pid : String) (f : PRec → PRec) :
    (updRec bp pid f).lookup pid = (bp.lookup pid).map f := by
  induction bp with
  | nil => simp [updRec, List.lookup]
  | cons hd tl ih =>
    obtain ⟨k, r⟩ := hd
    by_cases hk : k = pid
    · subst hk
      simp [updRec, List.lookup]
    · simp only [updRec, hk, if_false, List.lookup,
        beq_eq_false_iff_ne.mpr (Ne.symm hk)]
      exact ih

theorem lookup_updRec_ne (bp : List (String × PRec)) (pid q : String) (f : PRec → PRec)
    (h : q ≠ pid) : (updRec bp pid f).lookup q = bp.lookup q := by
  induction bp with
  | nil => simp [updRec]
  | cons hd tl ih =>
    obtain ⟨k, r⟩ := hd
    by_cases hk : k = pid
    · subst hk
      simp [updRec, List.lookup, beq_eq_false_iff_ne.mpr h]
    · simp only [updRec, hk, if_false, List.lookup]
      by_cases hq : q = k
      · subst hq
        simp [List.lookup]
      · simp only [beq_eq_false_iff_ne.mpr hq]
        exact ih

theorem minutesAt_ensureRec (bp : List (String × PRec)) (p q : String) :
    minutesAt (ensureRec bp p) q = minutesAt bp q := by
  by_cases h : q = p
  · subst h
    rw [minutesAt, lookup_ensureRec_self]
    cases hl : bp.lookup q <;> simp [minutesAt, hl, zeroRec]
  · rw [minutesAt, lookup_ensureRec_ne bp p q h, minutesAt]

theorem minutesAt_updRec_preserve (bp : List (String × PRec)) (p q : String)
    (f : PRec → PRec) (hf : ∀ r, (f r).minutes = r.minutes) :
    minutesAt (updRec bp p f) q = minutesAt bp q := by
  by_cases h : q = p
  · subst h
    rw [minutesAt, lookup_updRec_self, minutesAt]
    cases bp.lookup q <;> simp [hf]
  · rw [minutesAt, lookup_updRec_ne _ _ _ _ h, minutesAt]

theorem minutesAt_preRelState (bp : List (String × PRec)) (ev : PyVal) (tn : String)
    (pid : String) :
    minutesAt (preRelState bp ev tn) pid =
      if mainPid ev = some pid ∧ isGoalLabel tn = true
        then max (minutesAt bp pid) (minuteOf ev)
        else minutesAt bp pid := by
  unfold preRelState
  have hstep : ∀ bmid : List (String × PRec),
      minutesAt (if isInjuryLabel tn = true then
          (match mainPid ev with
           | some pid2 => updRec bmid pid2 (fun pr => { pr with injury := true })
           | Option.none => bmid)
        else bmid) pid = minutesAt bmid pid := by
    intro bmid
    by_cases hi : isInjuryLabel tn = true
    · rw [if_pos hi]
      cases mainPid ev with
      | none => rfl
      | some p2 => exact minutesAt_updRec_preserve bmid p2 pid _ (fun _ => rfl)
    · rw [if_neg hi]
  rw [hstep]
  by_cases hg : isGoalLabel tn = true
  · rw [if_pos hg]
    cases hmp : mainPid ev with
    | none =>
      have hcond : ¬ (Option.none = some pid ∧ isGoalLabel tn = true) := fun hc => by
        cases hc.1
      rw [if_neg hcond]
    | some p =>
      by_cases hp : p = pid
      · have hcond : (some p = some pid ∧ isGoalLabel tn = true) := ⟨by rw [hp], hg⟩
        rw [if_pos hcond, hp]
        rw [minutesAt, lookup_updRec_self, lookup_ensureRec_self]
        cases hl : bp.lookup pid <;> simp [minutesAt, hl, zeroRec]
      · have hne : pid ≠ p := Ne.symm hp
        have hcond : ¬ (some p = some pid ∧ isGoalLabel tn = true) := fun hc =>
          hp (Option.some.inj hc.1)
        rw [if_neg hcond]
        rw [minutesAt, lookup_updRec_ne _ _ _ _ hne, lookup_ensureRec_ne _ _ _ hne]
        rfl
  · rw [if_neg hg]
    have hcond : ¬ (mainPid ev = some pid ∧ isGoalLabel tn = true) := fun hc => hg hc.2
    rw [if_neg hcond]
    cases hmp : mainPid ev with
    | none => rfl
    | some p => exact minutesAt_ensureRec bp p pid

theorem procRelated_minutes (minute : ℤ) (bp : List (String × PRec)) (r : PyVal)
    (bp2 : List (String × PRec)) (h : procRelated minute bp r = .ok bp2) (pid : String) :
    minutesAt bp2 pid = (relContrib pid minute r).foldl max (minutesAt bp pid) := by
  cases r with
  | pdict d =>
    simp only [procRelated] at h
    cases hrole : roleOf (.pdict d) with
    | error e =>
      rw [hrole] at h
      simp at h
    | ok role =>
      rw [hrole] at h
      dsimp only at h
      have hrd : roleD (.pdict d) = role := by simp [roleD, hrole, Except.toOption]
      cases hrid : relPid (.pdict d) with
      | none =>
        rw [hrid] at h
        dsimp only at h
        simp only [Except.ok.injEq] at h
        subst h
        simp [relContrib, hrid]
      | some rid =>
        rw [hrid] at h
        dsimp only at h
        by_cases ha : isAssistRole role = true
        · rw [if_pos ha] at h
          simp only [Except.ok.injEq] at h
          subst h
          by_cases hp : rid = pid
          · have hcond : (relPid (.pdict d) = some pid
                ∧ isAssistRole (roleD (.pdict d)) = true) := by
              rw [hrid, hp, hrd]
              exact ⟨rfl, ha⟩
            simp only [relContrib, hcond, if_true]
            rw [hp]
            rw [minutesAt, lookup_updRec_self, lookup_ensureRec_self]
            cases hl : bp.lookup pid <;> simp [minutesAt, hl, zeroRec]
          · have hne : pid ≠ rid := Ne.symm hp
            have hcond : ¬ (relPid (.pdict d) = some pid
                ∧ isAssistRole (roleD (.pdict d)) = true) := by
              rw [hrid]
              intro hc
              exact hp (Option.some.inj hc.1)
            simp only [relContrib, hcond, if_false]
            rw [minutesAt, lookup_updRec_ne _ _ _ _ hne, lookup_ensureRec_ne _ _ _ hne]
            rfl
        · rw [if_neg ha] at h
          simp only [Except.ok.injEq] at h
          subst h
          have hcond : ¬ (relPid (.pdict d) = some pid
              ∧ isAssistRole (roleD (.pdict d)) = true) := by
            rw [hrd]
            intro hc
            exact ha hc.2
          simp only [relContrib, hcond, if_false]
          simp [minutesAt_ensureRec]
  | none => simp_all [procRelated, relContrib]
  | pbool b => simp_all [procRelated, relContrib]
  | pint n => simp_all [procRelated, relContrib]
  | pstr s2 => simp_all [procRelated, relContrib]
  | plist l => simp_all [procRelated, relContrib]

theorem procRelatedList_minutes (minute : ℤ) (rs : List PyVal) :
    ∀ (bp bp2 : List (String × PRec)), procRelatedList minute bp rs = .ok bp2 →
      ∀ pid, minutesAt bp2 pid
        = ((rs.map (relContrib pid minute)).flatten).foldl max (minutesAt bp pid) := by
  induction rs with
  | nil =>
    intro bp bp2 h pid
    simp only [procRelatedList, Except.ok.injEq] at h
    subst h
    simp
  | cons r rest ih =>
    intro bp bp2 h pid
    simp only [procRelatedList] at h
    cases hr : procRelated minute bp r with
    | error e =>
      rw [hr] at h
      simp at h
    | ok bp1 =>
      rw [hr] at h
      rw [ih bp1 bp2 h pid, procRelated_minutes minute bp r bp1 hr pid]
      simp [List.foldl_append]

theorem procEvent_minutes (bp : List (String × PRec)) (ev : PyVal)
    (bp2 : List (String × PRec)) (h : procEvent bp ev = .ok bp2) (pid : String) :
    minutesAt bp2 pid = (eventContrib pid ev).foldl max (minutesAt bp pid) := by
  cases ev with
  | pdict d =>
    simp only [procEvent] at h
    cases htn : tnameOf (.pdict d) with
    | error e =>
      rw [htn] at h
      simp at h
    | ok tn =>
      rw [htn] at h
      dsimp only at h
      have htnD : tnameD (.pdict d) = tn := by simp [tnameD, htn, Except.toOption]
      have hpre := minutesAt_preRelState bp (.pdict d) tn pid
      have hgoalfold :
          minutesAt (preRelState bp (.pdict d) tn) pid
            = (if mainPid (.pdict d) = some pid ∧ isGoalLabel (tnameD (.pdict d)) = true
                then [minuteOf (.pdict d)] else []).foldl max (minutesAt bp pid) := by
        rw [hpre, htnD]
        by_cases hc : mainPid (.pdict d) = some pid ∧ isGoalLabel tn = true
        · rw [if_pos hc, if_pos hc]
          simp
        · rw [if_neg hc, if_neg hc]
          simp
      cases hrel : relatedOf (.pdict d) with
      | plist rs =>
        rw [hrel] at h
        dsimp only at h
        have hlist := procRelatedList_minutes (minuteOf (.pdict d)) rs.toList
          (preRelState bp (.pdict d) tn) bp2 h pid
        rw [hlist, hgoalfold]
        simp only [eventContrib, hrel]
        rw [← List.foldl_append]
      | pdict d2 =>
        rw [hrel] at h
        dsimp only at h
        simp only [Except.ok.injEq] at h
        subst h
        rw [hgoalfold]
        simp [eventContrib, hrel]
      | none =>
        rw [hrel] at h
        dsimp only at h
        simp only [Except.ok.injEq] at h
        subst h
        rw [hgoalfold]
        simp [eventContrib, hrel]
      | pbool b =>
        rw [hrel] at h
        dsimp only at h
        simp only [Except.ok.injEq] at h
        subst h
        rw [hgoalfold]
        simp [eventContrib, hrel]
      | pint n =>
        rw [hrel] at h
        dsimp only at h
        simp only [Except.ok.injEq] at h
        subst h
        rw [hgoalfold]
        simp [eventContrib, hrel]
      | pstr s2 =>
        rw [hrel] at h
        dsimp only at h
        simp only [Except.ok.injEq] at h
        subst h
        rw [hgoalfold]
        simp [eventContrib, hrel]
  | none => simp_all [procEvent, eventContrib]
  | pbool b => simp_all [procEvent, eventContrib]
  | pint n => simp_all [procEvent, eventContrib]
  | pstr s2 => simp_all [procEvent, eventContrib]
  | plist l => simp_all [procEvent, eventContrib]

theorem procEvents_minutes (evs : List PyVal) :
    ∀ (bp bp2 : List (String × PRec)), procEvents bp evs = .ok bp2 →
      ∀ pid, minutesAt bp2 pid
        = (contribMinutes pid evs).foldl max (minutesAt bp pid) := by
  induction evs with
  | nil =>
    intro bp bp2 h pid
    simp only [procEvents, Except.ok.injEq] at h
    subst h
    simp [contribMinutes]
  | cons ev rest ih =>
    intro bp bp2 h pid
    simp only [procEvents] at h
    cases hev : procEvent bp ev with
    | error e =>
      rw [hev] at h
      simp at h
    | ok bp1 =>
      rw [hev] at h
      rw [ih bp1 bp2 h pid, procEvent_minutes bp ev bp1 hev pid]
      simp [contribMinutes, List.foldl_append]

/-! ### Key-set lemmas for the aggregation state -/

theorem keys_updRec (bp : List (String × PRec)) (pid : String) (f : PRec → PRec) :
    (updRec bp pid f).map Prod.fst = bp.map Prod.fst := by
  induction bp with
  | nil => simp [updRec]
  | cons hd tl ih =>
    obtain ⟨k, r⟩ := hd
    by_cases hk : k = pid <;> simp [updRec, hk, ih]

theorem keys_ensureRec (bp : List (String × PRec)) (pid : String) :
    (ensureRec bp pid).map Prod.fst = bp.map Prod.fst
      ∨ ((ensureRec bp pid).map Prod.fst = bp.map Prod.fst ++ [pid]
          ∧ bp.lookup pid = Option.none) := by
  unfold ensureRec
  cases h : bp.lookup pid with
  | some r => simp [h]
  | none => simp [h]

theorem prec_lookup_none_iff (l : List (String × PRec)) (k : String) :
    l.lookup k = Option.none ↔ k ∉ l.map Prod.fst := by
  induction l with
  | nil => simp [List.lookup]
  | cons hd tl ih =>
    obtain ⟨k2, v2⟩ := hd
    by_cases hk : k = k2
    · subst hk
      simp [List.lookup]
    · simp [List.lookup, beq_eq_false_iff_ne.mpr hk, ih, hk]

theorem nodup_keys_ensureRec (bp : List (String × PRec)) (pid : String)
    (h : (bp.map Prod.fst).Nodup) : ((ensureRec bp pid).map Prod.fst).Nodup := by
  rcases keys_ensureRec bp pid with he | ⟨he, hnone⟩
  · rw [he]
    exact h
  · rw [he]
    have : pid ∉ bp.map Prod.fst := (prec_lookup_none_iff bp pid).mp hnone
    simp [List.nodup_append, h, this]

theorem mem_lookup_of_nodup (l : List (String × PRec)) (k : String) (v : PRec)
    (h : (l.map Prod.fst).Nodup) (hm : (k, v) ∈ l) : l.lookup k = some v := by
  induction l with
  | nil => cases hm
  | cons hd tl ih =>
    obtain ⟨k2, v2⟩ := hd
    simp only [List.map_cons, List.nodup_cons] at h
    rcases List.mem_cons.mp hm with heq | hmem
    · obtain ⟨h1, h2⟩ := Prod.mk.injEq k v k2 v2 ▸ heq
      subst h1
      subst h2
      simp [List.lookup]
    · by_cases hk : k = k2
      · exfalso
        subst hk
        exact h.1 (List.mem_map_of_mem Prod.fst hmem)
      · simp only [List.lookup, beq_eq_false_iff_ne.mpr hk]
        exact ih h.2 hmem

theorem keys_preRelState (bp : List (String × PRec)) (ev : PyVal) (tn : String) :
    (preRelState bp ev tn).map Prod.fst
      = (match mainPid ev with
         | some p => ensureRec bp p
         | Option.none => bp).map Prod.fst := by
  unfold preRelState
  cases hmp : mainPid ev with
  | none => by_cases hg : isGoalLabel tn = true <;> by_cases hi : isInjuryLabel tn = true <;>
      simp [hg, hi, keys_updRec]
  | some p => by_cases hg : isGoalLabel tn = true <;> by_cases hi : isInjuryLabel tn = true <;>
      simp [hg, hi, keys_updRec]

theorem preRelState_keys_subset (bp : List (String × PRec)) (ev : PyVal) (tn : String)
    (k : String) (hk : k ∈ (preRelState bp ev tn).map Prod.fst) :
    k ∈ bp.map Prod.fst ∨ mainPid ev = some k := by
  rw [keys_preRelState] at hk
  cases hmp : mainPid ev with
  | none =>
    rw [hmp] at hk
    exact Or.inl hk
  | some p =>
    rw [hmp] at hk
    rcases keys_ensureRec bp p with he | ⟨he, _⟩
    · rw [he] at hk
      exact Or.inl hk
    · rw [he] at hk
      rcases List.mem_append.mp hk with hm | hm
      · exact Or.inl hm
      · simp at hm
        subst hm
        exact Or.inr rfl

theorem preRelState_keys_nodup (bp : List (String × PRec)) (ev : PyVal) (tn : String)
    (h : (bp.map Prod.fst).Nodup) : ((preRelState bp ev tn).map Prod.fst).Nodup := by
  rw [keys_preRelState]
  cases mainPid ev with
  | none => exact h
  | some p => exact nodup_keys_ensureRec bp p h

theorem procRelated_keys (minute : ℤ) (bp : List (String × PRec)) (r : PyVal)
    (bp2 : List (String × PRec)) (h : procRelated minute bp r = .ok bp2) :
    (∀ k, k ∈ bp2.map Prod.fst → k ∈ bp.map Prod.fst ∨ relPid r = some k)
      ∧ ((bp.map Prod.fst).Nodup → (bp2.map Prod.fst).Nodup) := by
  cases r with
  | pdict d =>
    simp only [procRelated] at h
    cases hrole : roleOf (.pdict d) with
    | error e =>
      rw [hrole] at h
      simp at h
    | ok role =>
      rw [hrole] at h
      dsimp only at h
      cases hrid : relPid (.pdict d) with
      | none =>
        rw [hrid] at h
        dsimp only at h
        simp only [Except.ok.injEq] at h
        subst h
        exact ⟨fun k hk => Or.inl hk, id⟩
      | some rid =>
        rw [hrid] at h
        dsimp only at h
        have hgen : bp2.map Prod.fst = (ensureRec bp rid).map Prod.fst := by
          by_cases ha : isAssistRole role = true
          · rw [if_pos ha] at h
            simp only [Except.ok.injEq] at h
            subst h
            exact keys_updRec _ _ _
          · rw [if_neg ha] at h
            simp only [Except.ok.injEq] at h
            subst h
            rfl
        constructor
        · intro k hk
          rw [hgen] at hk
          rcases keys_ensureRec bp rid with he | ⟨he, _⟩
          · rw [he] at hk
            exact Or.inl hk
          · rw [he] at hk
            rcases List.mem_append.mp hk with hm | hm
            · exact Or.inl hm
            · simp at hm
              subst hm
              exact Or.inr rfl
        · intro hnd
          rw [hgen]
          exact nodup_keys_ensureRec bp rid hnd
  | none =>
    simp only [procRelated, Except.ok.injEq] at h
    subst h
    exact ⟨fun k hk => Or.inl hk, id⟩
  | pbool b =>
    simp only [procRelated, Except.ok.injEq] at h
    subst h
    exact ⟨fun k hk => Or.inl hk, id⟩
  | pint n =>
    simp only [procRelated, Except.ok.injEq] at h
    subst h
    exact ⟨fun k hk => Or.inl hk, id⟩
  | pstr s2 =>
    simp only [procRelated, Except.ok.injEq] at h
    subst h
    exact ⟨fun k hk => Or.inl hk, id⟩
  | plist l =>
    simp only [procRelated, Except.ok.injEq] at h
    subst h
    exact ⟨fun k hk => Or.inl hk, id⟩

theorem procRelatedList_keys (minute : ℤ) (rs : List PyVal) :
    ∀ (bp bp2 : List (String × PRec)), procRelatedList minute bp rs = .ok bp2 →
      (∀ k, k ∈ bp2.map Prod.fst → k ∈ bp.map Prod.fst ∨ k ∈ rs.filterMap relPid)
        ∧ ((bp.map Prod.fst).Nodup → (bp2.map Prod.fst).Nodup) := by
  induction rs with
  | nil =>
    intro bp bp2 h
    simp only [procRelatedList, Except.ok.injEq] at h
    subst h
    exact ⟨fun k hk => Or.inl hk, id⟩
  | cons r rest ih =>
    intro bp bp2 h
    simp only [procRelatedList] at h
    cases hr : procRelated minute bp r with
    | error e =>
      rw [hr] at h
      simp at h
    | ok bp1 =>
      rw [hr] at h
      obtain ⟨hsub1, hnd1⟩ := procRelated_keys minute bp r bp1 hr
      obtain ⟨hsub2, hnd2⟩ := ih bp1 bp2 h
      constructor
      · intro k hk
        rcases hsub2 k hk with hk1 | hk1
        · rcases hsub1 k hk1 with hk2 | hk2
          · exact Or.inl hk2
          · refine Or.inr ?_
            simp [List.filterMap_cons, hk2]
        · refine Or.inr ?_
          cases hrp : relPid r <;> simp [List.filterMap_cons, hrp, hk1]
      · exact fun hnd => hnd2 (hnd1 hnd)

theorem procEvent_keys (bp : List (String × PRec)) (ev : PyVal)
    (bp2 : List (String × PRec)) (h : procEvent bp ev = .ok bp2) :
    (∀ k, k ∈ bp2.map Prod.fst → k ∈ bp.map Prod.fst ∨ k ∈ eventPids ev)
      ∧ ((bp.map Prod.fst).Nodup → (bp2.map Prod.fst).Nodup) := by
  cases ev with
  | pdict d =>
    simp only [procEvent] at h
    cases htn : tnameOf (.pdict d) with
    | error e =>
      rw [htn] at h
      simp at h
    | ok tn =>
      rw [htn] at h
      dsimp only at h
      cases hrel : relatedOf (.pdict d) with
      | plist rs =>
        rw [hrel] at h
        dsimp only at h
        obtain ⟨hsub2, hnd2⟩ := procRelatedList_keys (minuteOf (.pdict d)) rs.toList
          (preRelState bp (.pdict d) tn) bp2 h
        constructor
        · intro k hk
          rcases hsub2 k hk with hk1 | hk1
          · rcases preRelState_keys_subset bp (.pdict d) tn k hk1 with hk2 | hk2
            · exact Or.inl hk2
            · refine Or.inr ?_
              simp [eventPids, hrel, hk2]
          · refine Or.inr ?_
            simp [eventPids, hrel, hk1]
        · exact fun hnd => hnd2 (preRelState_keys_nodup bp (.pdict d) tn hnd)
      | pdict d2 =>
        rw [hrel] at h
        dsimp only at h
        simp only [Except.ok.injEq] at h
        subst h
        refine ⟨fun k hk => ?_, fun hnd => preRelState_keys_nodup bp (.pdict d) tn hnd⟩
        rcases preRelState_keys_subset bp (.pdict d) tn k hk with hk2 | hk2
        · exact Or.inl hk2
        · exact Or.inr (by simp [eventPids, hrel, hk2])
      | none =>
        rw [hrel] at h
        dsimp only at h
        simp only [Except.ok.injEq] at h
        subst h
        refine ⟨fun k hk => ?_, fun hnd => preRelState_keys_nodup bp (.pdict d) tn hnd⟩
        rcases preRelState_keys_subset bp (.pdict d) tn k hk with hk2 | hk2
        · exact Or.inl hk2
        · exact Or.inr (by simp [eventPids, hrel, hk2])
      | pbool b =>
        rw [hrel] at h
        dsimp only at h
        simp only [Except.ok.injEq] at h
        subst h
        refine ⟨fun k hk => ?_, fun hnd => preRelState_keys_nodup bp (.pdict d) tn hnd⟩
        rcases preRelState_keys_subset bp (.pdict d) tn k hk with hk2 | hk2
        · exact Or.inl hk2
        · exact Or.inr (by simp [eventPids, hrel, hk2])
      | pint n =>
        rw [hrel] at h
        dsimp only at h
        simp only [Except.ok.injEq] at h
        subst h
        refine ⟨fun k hk => ?_, fun hnd => preRelState_keys_nodup bp (.pdict d) tn hnd⟩
        rcases preRelState_keys_subset bp (.pdict d) tn k hk with hk2 | hk2
        · exact Or.inl hk2
        · exact Or.inr (by simp [eventPids, hrel, hk2])
      | pstr s2 =>
        rw [hrel] at h
        dsimp only at h
        simp only [Except.ok.injEq] at h
        subst h
        refine ⟨fun k hk => ?_, fun hnd => preRelState_keys_nodup bp (.pdict d) tn hnd⟩
        rcases preRelState_keys_subset bp (.pdict d) tn k hk with hk2 | hk2
        · exact Or.inl hk2
        · exact Or.inr (by simp [eventPids, hrel, hk2])
  | none =>
    simp only [procEvent, Except.ok.injEq] at h
    subst h
    exact ⟨fun k hk => Or.inl hk, id⟩
  | pbool b =>
    simp only [procEvent, Except.ok.injEq] at h
    subst h
    exact ⟨fun k hk => Or.inl hk, id⟩
  | pint n =>
    simp only [procEvent, Except.ok.injEq] at h
    subst h
    exact ⟨fun k hk => Or.inl hk, id⟩
  | pstr s2 =>
    simp only [procEvent, Except.ok.injEq] at h
    subst h
    exact ⟨fun k hk => Or.inl hk, id⟩
  | plist l =>
    simp only [procEvent, Except.ok.injEq] at h
    subst h
    exact ⟨fun k hk => Or.inl hk, id⟩

theorem procEvents_keys (evs : List PyVal) :
    ∀ (bp bp2 : List (String × PRec)), procEvents bp evs = .ok bp2 →
      (∀ k, k ∈ bp2.map Prod.fst → k ∈ bp.map Prod.fst ∨ k ∈ resolvedPids evs)
        ∧ ((bp.map Prod.fst).Nodup → (bp2.map Prod.fst).Nodup) := by
  induction evs with
  | nil =>
    intro bp bp2 h
    simp only [procEvents, Except.ok.injEq] at h
    subst h
    exact ⟨fun k hk => Or.inl hk, id⟩
  | cons ev rest ih =>
    intro bp bp2 h
    simp only [procEvents] at h
    cases hev : procEvent bp ev with
    | error e =>
      rw [hev] at h
      simp at h
    | ok bp1 =>
      rw [hev] at h
      obtain ⟨hsub1, hnd1⟩ := procEvent_keys bp ev bp1 hev
      obtain ⟨hsub2, hnd2⟩ := ih bp1 bp2 h
      constructor
      · intro k hk
        rcases hsub2 k hk with hk1 | hk1
        · rcases hsub1 k hk1 with hk2 | hk2
          · exact Or.inl hk2
          · exact Or.inr (by simp [resolvedPids, hk2])
        · refine Or.inr ?_
          simp only [resolvedPids] at hk1 ⊢
          simp [hk1]
      · exact fun hnd => hnd2 (hnd1 hnd)

/-- C7 (amended): for every payload that normalizes without raising, the
`minutes` field of each emitted `StatUpdate` equals the maximum minute over
the minutes contributed to that athlete's record — its goal-detected events
and the related-entries crediting it with an assist (starting from the fresh
record's 0) — not their sum; events of the athlete that update nothing (e.g.
an injury event) contribute nothing to `minutes`. -/
theorem c7_minutes_max_over_contributing (data : PyVal) (stats : List StatUpdate)
    (evs : List PyVal) (hevs : eventsOf data = .ok evs)
    (h : process_statsbomb data = .ok stats) :
    ∀ st ∈ stats, st.minutes = (contribMinutes st.player_id evs).foldl max 0 := by
  intro st hst
  simp only [process_statsbomb, hevs] at h
  cases hbp : procEvents [] evs with
  | error e =>
    rw [hbp] at h
    simp at h
  | ok bp =>
    rw [hbp] at h
    simp only [Except.ok.injEq] at h
    subst h
    obtain ⟨kv, hkv, hts⟩ := List.mem_map.mp hst
    have hnd : (bp.map Prod.fst).Nodup := (procEvents_keys evs [] bp hbp).2 (by simp)
    have hlk : bp.lookup kv.1 = some kv.2 :=
      mem_lookup_of_nodup bp kv.1 kv.2 hnd (by rw [Prod.mk.eta]; exact hkv)
    have hmin := procEvents_minutes evs [] bp hbp kv.1
    rw [minutesAt, hlk] at hmin
    subst hts
    simpa [minutesAt, List.lookup] using hmin

/-- Witness for C7 (amended) at the spec's own scenario 6: two goal events
for athlete 999 at minutes 20 and 75 yield `minutes = 75`, the maximum of the
contributed minutes. -/
theorem c7_minutes_max_over_contributing_witness :
    ({ player_id := "999", goals := 2, assists := 0, minutes := 75,
       injury := false } : StatUpdate).minutes
      = (contribMinutes "999"
          [.pdict (mkDict [("type", .pdict (mkDict [("name", .pstr "Goal")])),
             ("player", .pdict (mkDict [("id", .pint 999)])),
             ("minute", .pint 20)]),
           .pdict (mkDict [("type", .pdict (mkDict [("name", .pstr "Goal")])),
             ("player", .pdict (mkDict [("id", .pint 999)])),
             ("minute", .pint 75)])]).foldl max 0 :=
  c7_minutes_max_over_contributing
    (.pdict (mkDict [("events", .plist (mkList [
      .pdict (mkDict [("type", .pdict (mkDict [("name", .pstr "Goal")])),
        ("player", .pdict (mkDict [("id", .pint 999)])),
        ("minute", .pint 20)]),
      .pdict (mkDict [("type", .pdict (mkDict [("name", .pstr "Goal")])),
        ("player", .pdict (mkDict [("id", .pint 999)])),
        ("minute", .pint 75)])]))]))
    [{ player_id := "999", goals := 2, assists := 0, minutes := 75, injury := false }]
    [.pdict (mkDict [("type", .pdict (mkDict [("name", .pstr "Goal")])),
       ("player", .pdict (mkDict [("id", .pint 999)])),
       ("minute", .pint 20)]),
     .pdict (mkDict [("type", .pdict (mkDict [("name", .pstr "Goal")])),
       ("player", .pdict (mkDict [("id", .pint 999)])),
       ("minute", .pint 75)])]
    rfl (by decide) _ (by simp)

/-- C10 (amended): (1) every emitted `StatUpdate`'s `player_id` is an
identifier actually resolved from some event (primary or related), so an
event whose resolved identifier is absent (None) contributes nothing to the
output; (2) an id equal to the number 0 under the non-final `id` alternative
falls through (a player object `{"id": 0}` resolves to None); but (3) a 0
produced by the final `player_id` alternative is kept and stringifies to
`"0"` — only None is treated as absent. -/
theorem c10_unresolved_contributes_nothing :
    (∀ (data : PyVal) (stats : List StatUpdate) (evs : List PyVal),
        eventsOf data = .ok evs → process_statsbomb data = .ok stats →
        ∀ st ∈ stats, st.player_id ∈ resolvedPids evs)
      ∧ mainPid (.pdict (mkDict [("player", .pdict (mkDict [("id", .pint 0)]))]))
          = Option.none
      ∧ mainPid (.pdict (mkDict [("player", .pdict (mkDict [("player_id", .pint 0)]))]))
          = some "0" := by
  refine ⟨?_, by decide, by decide⟩
  intro data stats evs hevs h st hst
  simp only [process_statsbomb, hevs] at h
  cases hbp : procEvents [] evs with
  | error e =>
    rw [hbp] at h
    simp at h
  | ok bp =>
    rw [hbp] at h
    simp only [Except.ok.injEq] at h
    subst h
    obtain ⟨kv, hkv, hts⟩ := List.mem_map.mp hst
    have hsub := (procEvents_keys evs [] bp hbp).1 kv.1
      (List.mem_map_of_mem Prod.fst hkv)
    rcases hsub with hk | hk
    · simp at hk
    · subst hts
      exact hk

/-- Witness for C10 (amended): at the counterexample payload, the emitted
player id `"0"` is indeed among the resolved identifiers. -/
theorem c10_unresolved_contributes_nothing_witness :
    "0" ∈ resolvedPids
      [.pdict (mkDict [("player", .pdict (mkDict [("player_id", .pint 0)]))])] := by
  have h := c10_unresolved_contributes_nothing.1
    (.pdict (mkDict [("events", .plist (mkList [
      .pdict (mkDict [("player", .pdict (mkDict [("player_id", .pint 0)]))])]))]))
    [{ player_id := "0", goals := 0, assists := 0, minutes := 0, injury := false }]
    [.pdict (mkDict [("player", .pdict (mkDict [("player_id", .pint 0)]))])]
    rfl (by decide)
    { player_id := "0", goals := 0, assists := 0, minutes := 0, injury := false }
    (by simp)
  simpa using h
